import Mathlib

/-!
Verification development for the resume-analysis pipeline in `src/main.py`.

Python strings are modelled as `List Char`.  The external collaborators
(Streamlit UI, PyMuPDF page extraction, python-docx paragraph extraction,
the Gemini model client, reportlab's PDF serializer) enter the model as
explicit inputs or abstract outcomes; everything the repository's own code
does to strings, records and the report story is embedded faithfully.
-/

/-- Whitespace characters stripped by Python's `str.strip` (ASCII subset;
the claims only exercise these). -/
def pyWs (c : Char) : Bool :=
  c == ' ' || c == '\t' || c == '\n' || c == '\r' || c == '\x0b' || c == '\x0c'

/-- Leading-whitespace removal, the left half of Python `str.strip`. -/
def lstrip (l : List Char) : List Char := l.dropWhile pyWs

/-- Trailing-whitespace removal, the right half of Python `str.strip`. -/
def rstrip (l : List Char) : List Char := (l.reverse.dropWhile pyWs).reverse

/-- Python `str.strip`: remove leading and trailing whitespace. -/
def pstrip (l : List Char) : List Char := rstrip (lstrip l)

/-- Left-to-right scanner implementing Python `str.replace(pat, rep)`:
at each position, if the pattern matches, emit the replacement and skip
the matched region, otherwise keep the character.  A positive `skip`
means the scanner is still inside a previously matched region.  (Python's
behaviour for an empty pattern is not needed here; the guard makes the
empty pattern act as the identity.) -/
def raGo (pat rep : List Char) : Nat → List Char → List Char
  | _ + 1, [] => []
  | skip + 1, _ :: cs => raGo pat rep skip cs
  | 0, [] => []
  | 0, c :: cs =>
    if pat ≠ [] ∧ pat.isPrefixOf (c :: cs) then
      rep ++ raGo pat rep (pat.length - 1) cs
    else
      c :: raGo pat rep 0 cs

/-- Python `str.replace(pat, rep)`: replace every occurrence, scanning left
to right. -/
def replaceAll (pat rep l : List Char) : List Char := raGo pat rep 0 l

/-- The bare triple-backtick fence token. -/
def bt3 : List Char := "```".data

/-- The `json`-tagged fence opener. -/
def bt7 : List Char := "```json".data

/-- Reply normalization performed identically in all three analysis tabs
(src/main.py:265-269, 306-310, 345-349): strip, then if the text begins
with a tagged or bare fence, delete every occurrence of the fence tokens
and strip again. -/
def normalizeReply (raw : List Char) : List Char :=
  let r := pstrip raw
  if bt7.isPrefixOf r then pstrip (replaceAll bt3 [] (replaceAll bt7 [] r))
  else if bt3.isPrefixOf r then pstrip (replaceAll bt3 [] r)
  else r

/-- Contiguous-substring occurrence test: does `pat` occur in the list? -/
def containsSub (pat : List Char) : List Char → Bool
  | [] => pat.isEmpty
  | c :: cs => pat.isPrefixOf (c :: cs) || containsSub pat cs

/-- Characters that stand for themselves inside a JSON string literal:
anything except the quote, the backslash and the raw control characters. -/
def jsonSafeChar (c : Char) : Bool :=
  c != '"' && c != '\\' && decide (0x20 ≤ c.toNat)

/-- Outcome of one synchronous call to the external model client: either a
reply text or a raised exception, represented by its message `str(e)`. -/
inductive ModelOutcome where
  | reply (text : List Char)
  | exc (msg : List Char)
deriving DecidableEq

/-- The error payload built by each wrapper's `except` branch:
the f-string `'{"error": "<tag><msg>"}'` with the braces written out. -/
def errPayload (tag msg : List Char) : List Char :=
  "\x7b\"error\": \"".data ++ tag ++ msg ++ "\"\x7d".data

/-- Embedding of `analyze_resume` (src/main.py:41-62): on success the
reply text is stripped and returned; any exception is caught and turned
into the error payload.  The wrapper itself never raises. -/
def analyze_resume : ModelOutcome → List Char
  | .reply t => pstrip t
  | .exc e => errPayload "Failed to analyze resume: ".data e

/-- Embedding of `parse_structured_resume` (src/main.py:64-114). -/
def parse_structured_resume : ModelOutcome → List Char
  | .reply t => pstrip t
  | .exc e => errPayload "Failed to parse resume: ".data e

/-- Embedding of `detect_jargon_and_ats_issues` (src/main.py:116-138). -/
def detect_jargon_and_ats_issues : ModelOutcome → List Char
  | .reply t => pstrip t
  | .exc e => errPayload "Failed to analyze jargon/ATS: ".data e

/-- A parsed JSON value, the result of Python's `json.loads`.  Numbers are
kept as their source lexeme (Python converts them to `int`/`float`; no
claim compares numbers across distinct lexemes).  Objects are kept as the
member list in source order; the claims never exercise duplicate keys
(where Python would keep the last binding). -/
inductive Json where
  | null
  | bool (b : Bool)
  | num (lexeme : List Char)
  | str (s : List Char)
  | arr (elems : List Json)
  | obj (members : List (List Char × Json))

/-- JSON whitespace as accepted by Python's `json.loads` between tokens. -/
def jsonWs (c : Char) : Bool := c == ' ' || c == '\t' || c == '\n' || c == '\r'

/-- Skip JSON inter-token whitespace. -/
def skipWs (l : List Char) : List Char := l.dropWhile jsonWs

/-- Value of one hexadecimal digit. -/
def hexDigit (c : Char) : Option Nat :=
  if '0' ≤ c ∧ c ≤ '9' then some (c.toNat - '0'.toNat)
  else if 'a' ≤ c ∧ c ≤ 'f' then some (c.toNat - 'a'.toNat + 10)
  else if 'A' ≤ c ∧ c ≤ 'F' then some (c.toNat - 'A'.toNat + 10)
  else none

/-- Value of a four-hex-digit group, as in a `\uXXXX` escape. -/
def hexQuad (a b c d : Char) : Option Nat :=
  match hexDigit a, hexDigit b, hexDigit c, hexDigit d with
  | some va, some vb, some vc, some vd => some (((va * 16 + vb) * 16 + vc) * 16 + vd)
  | _, _, _, _ => none

/-- Single-character JSON escapes. -/
def escChar (c : Char) : Option Char :=
  if c = '"' then some '"'
  else if c = '\\' then some '\\'
  else if c = '/' then some '/'
  else if c = 'b' then some '\x08'
  else if c = 'f' then some '\x0c'
  else if c = 'n' then some '\n'
  else if c = 'r' then some '\r'
  else if c = 't' then some '\t'
  else none

/-- Prepend a character to the content component of a string-scan result. -/
def consFst (c : Char) : Option (List Char × List Char) → Option (List Char × List Char) :=
  Option.map (fun p => (c :: p.1, p.2))

/-- Scan a JSON string body after the opening quote, structurally on a
fuel counter that the wrapper `stringBody` sets to more than the input
length (each step consumes at least one character).  Returns the decoded
content and the rest of the input after the closing quote.  Mirrors the
strict mode of Python's `json.loads`: raw control characters are rejected,
escapes are decoded, and `\uXXXX` surrogate pairs are combined.  (A lone
surrogate, which Python's `str` can represent but Lean's `Char` cannot, is
rejected here; no claim depends on one.) -/
def sbGo : Nat → List Char → Option (List Char × List Char)
  | 0, _ => none
  | _ + 1, [] => none
  | fuel + 1, c :: rest =>
    if c = '"' then some ([], rest)
    else if c = '\\' then
      match rest with
      | [] => none
      | e :: rest1 =>
        if e = 'u' then
          match rest1 with
          | h1 :: h2 :: h3 :: h4 :: rest2 =>
            match hexQuad h1 h2 h3 h4 with
            | none => none
            | some n =>
              if n < 0xD800 ∨ 0xDFFF < n then consFst (Char.ofNat n) (sbGo fuel rest2)
              else if n ≤ 0xDBFF then
                match rest2 with
                | '\\' :: 'u' :: g1 :: g2 :: g3 :: g4 :: rest3 =>
                  match hexQuad g1 g2 g3 g4 with
                  | some m =>
                    if 0xDC00 ≤ m ∧ m ≤ 0xDFFF then
                      consFst (Char.ofNat (0x10000 + (n - 0xD800) * 1024 + (m - 0xDC00)))
                        (sbGo fuel rest3)
                    else none
                  | none => none
                | _ => none
              else none
          | _ => none
        else
          match escChar e with
          | some ec => consFst ec (sbGo fuel rest1)
          | none => none
    else if c.toNat < 0x20 then none
    else consFst c (sbGo fuel rest)

/-- Scan a JSON string body after the opening quote (fuel instantiated). -/
def stringBody (l : List Char) : Option (List Char × List Char) :=
  sbGo (l.length + 1) l

/-- Decimal digit test. -/
def isDig (c : Char) : Bool := '0' ≤ c && c ≤ '9'

/-- Split off a leading run of decimal digits. -/
def spanDigits (l : List Char) : List Char × List Char :=
  (l.takeWhile isDig, l.dropWhile isDig)

/-- Lex the optional fraction part of a JSON number. -/
def lexFrac : List Char → Option (List Char × List Char)
  | '.' :: r =>
    match spanDigits r with
    | ([], _) => none
    | (ds, rest) => some ('.' :: ds, rest)
  | s => some ([], s)

/-- Lex the optional exponent part of a JSON number. -/
def lexExp (s : List Char) : Option (List Char × List Char) :=
  match s with
  | e :: r =>
    if e = 'e' ∨ e = 'E' then
      let (sgn, r1) : List Char × List Char :=
        match r with
        | '+' :: r' => (['+'], r')
        | '-' :: r' => (['-'], r')
        | _ => ([], r)
      match spanDigits r1 with
      | ([], _) => none
      | (ds, rest) => some (e :: sgn ++ ds, rest)
    else some ([], s)
  | [] => some ([], [])

/-- Lex a JSON number per RFC 8259 (no leading zeros, nonempty integer
part), returning its lexeme and the rest of the input. -/
def lexNumber (s : List Char) : Option (List Char × List Char) :=
  let (neg, s1) : List Char × List Char :=
    match s with
    | '-' :: r => (['-'], r)
    | _ => ([], s)
  match s1 with
  | '0' :: r =>
    match lexFrac r with
    | none => none
    | some (fr, r2) =>
      match lexExp r2 with
      | none => none
      | some (ex, rest) => some (neg ++ '0' :: (fr ++ ex), rest)
  | c :: r =>
    if isDig c ∧ c ≠ '0' then
      let (ds, r1) := spanDigits r
      match lexFrac r1 with
      | none => none
      | some (fr, r2) =>
        match lexExp r2 with
        | none => none
        | some (ex, rest) => some (neg ++ c :: (ds ++ fr ++ ex), rest)
    else none
  | [] => none

/-- Parser mode: a plain value, or the member/element loop of a partly
consumed object/array with the accumulated members/elements. -/
inductive PMode where
  | value
  | members (acc : List (List Char × Json))
  | elems (acc : List Json)

/-- Recursive-descent JSON parser, structural on a fuel counter that the
top-level entry point sets large enough for any input it is given
(`json_loads` below).  Matches what Python's `json.loads` accepts,
including the `NaN`/`Infinity` extensions. -/
def parseF : Nat → PMode → List Char → Option (Json × List Char)
  | 0, _, _ => none
  | fuel + 1, .value, s =>
    match skipWs s with
    | [] => none
    | 'n' :: 'u' :: 'l' :: 'l' :: rest => some (.null, rest)
    | 't' :: 'r' :: 'u' :: 'e' :: rest => some (.bool true, rest)
    | 'f' :: 'a' :: 'l' :: 's' :: 'e' :: rest => some (.bool false, rest)
    | 'N' :: 'a' :: 'N' :: rest => some (.num "NaN".data, rest)
    | 'I' :: 'n' :: 'f' :: 'i' :: 'n' :: 'i' :: 't' :: 'y' :: rest =>
      some (.num "Infinity".data, rest)
    | '-' :: 'I' :: 'n' :: 'f' :: 'i' :: 'n' :: 'i' :: 't' :: 'y' :: rest =>
      some (.num "-Infinity".data, rest)
    | '"' :: rest => (stringBody rest).map (fun p => (.str p.1, p.2))
    | '{' :: rest =>
      (match skipWs rest with
       | '}' :: r2 => some (.obj [], r2)
       | s2 => parseF fuel (.members []) s2)
    | '[' :: rest =>
      (match skipWs rest with
       | ']' :: r2 => some (.arr [], r2)
       | s2 => parseF fuel (.elems []) s2)
    | s' => (lexNumber s').map (fun p => (.num p.1, p.2))
  | fuel + 1, .members acc, s =>
    match s with
    | '"' :: rest =>
      (match stringBody rest with
       | none => none
       | some (k, r1) =>
         match skipWs r1 with
         | ':' :: r2 =>
           (match parseF fuel .value r2 with
            | none => none
            | some (v, r3) =>
              match skipWs r3 with
              | ',' :: r4 => parseF fuel (.members (acc ++ [(k, v)])) (skipWs r4)
              | '}' :: r4 => some (.obj (acc ++ [(k, v)]), r4)
              | _ => none)
         | _ => none)
    | _ => none
  | fuel + 1, .elems acc, s =>
    match parseF fuel .value s with
    | none => none
    | some (v, r1) =>
      match skipWs r1 with
      | ',' :: r2 => parseF fuel (.elems (acc ++ [v])) r2
      | ']' :: r2 => some (.arr (acc ++ [v]), r2)
      | _ => none

/-- Embedding of Python's `json.loads`: parse one value, require only
whitespace after it, return `none` where Python raises. -/
def json_loads (s : List Char) : Option Json :=
  match parseF (s.length + 1) .value s with
  | some (v, rest) => if skipWs rest = [] then some v else none
  | none => none

/-- Which of the three analysis calls were issued, in order. -/
inductive CallTag where
  | quality
  | structured
  | ats
deriving DecidableEq

/-- Result of one driver run after text extraction. -/
inductive PipelineOutcome where
  | extractionFailure
  | completed (feedback structuredRaw atsRaw : List Char)
deriving DecidableEq

/-- Embedding of the driver after extraction (src/main.py:239-241 and the
three tab bodies): an empty or whitespace-only extracted text triggers
`st.error` plus `st.stop()` before any model call; otherwise the three
calls are issued in tab order. -/
def runPipeline (resume_text : List Char) (o1 o2 o3 : ModelOutcome) :
    PipelineOutcome × List CallTag :=
  if pstrip resume_text = [] then (.extractionFailure, [])
  else (.completed (analyze_resume o1) (parse_structured_resume o2)
          (detect_jargon_and_ats_issues o3),
        [.quality, .structured, .ats])

/-- Python `str.join` with a separator, as used by `"\n".join(...)`
(src/main.py:31 and 35). -/
def pyJoin (sep : List Char) : List (List Char) → List Char
  | [] => []
  | [x] => x
  | x :: xs => x ++ sep ++ pyJoin sep xs

/-- Embedding of `extract_text_from_pdf` (src/main.py:29-31).  The
per-page text extraction (`page.get_text()` of PyMuPDF) is external; its
page-ordered results enter as `pages`. -/
def extract_text_from_pdf (pages : List (List Char)) : List Char :=
  pyJoin "\n".data pages

/-- Embedding of `extract_text_from_docx` (src/main.py:33-35).  Paragraph
text extraction (`p.text` of python-docx) is external; its document-ordered
results enter as `paras`. -/
def extract_text_from_docx (paras : List (List Char)) : List Char :=
  pyJoin "\n".data paras

/-- UTF-8 encoding of one Unicode scalar value. -/
def utf8EncodeChar (c : Char) : List Nat :=
  let n := c.toNat
  if n < 0x80 then [n]
  else if n < 0x800 then [0xC0 + n / 64, 0x80 + n % 64]
  else if n < 0x10000 then [0xE0 + n / 4096, 0x80 + n / 64 % 64, 0x80 + n % 64]
  else [0xF0 + n / 262144, 0x80 + n / 4096 % 64, 0x80 + n / 64 % 64, 0x80 + n % 64]

/-- UTF-8 encoding of a string. -/
def utf8Encode : List Char → List Nat
  | [] => []
  | c :: cs => utf8EncodeChar c ++ utf8Encode cs

/-- UTF-8 continuation byte test. -/
def utf8Cont (b : Nat) : Bool := 0x80 ≤ b && b ≤ 0xBF

/-- Strict UTF-8 decoding step, structurally on a fuel counter that the
wrapper `utf8Decode` sets to more than the input length (each step
consumes at least one byte).  Models Python's `bytes.decode('utf-8')`
(src/main.py:38), which raises on malformed input: overlong forms,
surrogates and out-of-range leading bytes are rejected. -/
def u8Go : Nat → List Nat → Option (List Char)
  | 0, _ => none
  | _ + 1, [] => some []
  | fuel + 1, b :: bs =>
    if b ≤ 0x7F then (u8Go fuel bs).map (fun t => Char.ofNat b :: t)
    else if 0xC2 ≤ b ∧ b ≤ 0xDF then
      match bs with
      | b1 :: bs1 =>
        if utf8Cont b1 then
          (u8Go fuel bs1).map (fun t => Char.ofNat ((b - 0xC0) * 64 + (b1 - 0x80)) :: t)
        else none
      | [] => none
    else if 0xE0 ≤ b ∧ b ≤ 0xEF then
      match bs with
      | b1 :: b2 :: bs2 =>
        if utf8Cont b1 ∧ utf8Cont b2 ∧ (b = 0xE0 → 0xA0 ≤ b1) ∧ (b = 0xED → b1 ≤ 0x9F) then
          (u8Go fuel bs2).map
            (fun t => Char.ofNat ((b - 0xE0) * 4096 + (b1 - 0x80) * 64 + (b2 - 0x80)) :: t)
        else none
      | _ => none
    else if 0xF0 ≤ b ∧ b ≤ 0xF4 then
      match bs with
      | b1 :: b2 :: b3 :: bs3 =>
        if utf8Cont b1 ∧ utf8Cont b2 ∧ utf8Cont b3 ∧ (b = 0xF0 → 0x90 ≤ b1) ∧
            (b = 0xF4 → b1 ≤ 0x8F) then
          (u8Go fuel bs3).map
            (fun t => Char.ofNat ((b - 0xF0) * 262144 + (b1 - 0x80) * 4096 +
              (b2 - 0x80) * 64 + (b3 - 0x80)) :: t)
        else none
      | _ => none
    else none

/-- Strict UTF-8 decoder (fuel instantiated). -/
def utf8Decode (bytes : List Nat) : Option (List Char) :=
  u8Go (bytes.length + 1) bytes

/-- Embedding of `extract_text_from_txt` (src/main.py:37-38): the uploaded
bytes decoded as UTF-8, `none` where Python's decoder raises. -/
def extract_text_from_txt (bytes : List Nat) : Option (List Char) :=
  utf8Decode bytes

/-- Modelled from the spec: the concatenation rule of §4.1, "concatenate
per-page extracted text in page order, separated by newline" (and the same
for DOCX paragraphs), written from the spec's words for refinement against
the code's `"\n".join`. -/
def specNewlineConcat : List (List Char) → List Char
  | [] => []
  | [x] => x
  | x :: xs => x ++ '\n' :: specNewlineConcat xs

/-- Paragraph styles used by the report (reportlab style sheet names). -/
inductive PStyle where
  | customTitle
  | heading2
  | heading3
  | normal
deriving DecidableEq

/-- A renderable block appended to the reportlab story. -/
inductive Flowable where
  | paragraph (text : List Char) (style : PStyle)
  | spacer (width height : Nat)
deriving DecidableEq

/-- The quality-analysis record (§3 AnalysisResult), a parsed JSON object
whose fields may individually be absent; `dict.get(k, default)` becomes
`Option.getD`. -/
structure AnalysisData where
  sections_detected : Option (List (List Char))
  missing_sections : Option (List (List Char))
  well_written_sections : Option (List (List Char))
  resume_quality_score : Option Int
  skills_sentiment_summary : Option (List Char)
  improvement_suggestions : Option (List (List Char))
deriving DecidableEq

/-- The quality record with every field absent: what a failed or
unparsable quality call leaves behind (`analysis_data = {}`). -/
def AnalysisData.empty : AnalysisData := ⟨none, none, none, none, none, none⟩

/-- Personal-information sub-record of the structured resume (§3). -/
structure PersonalInfo where
  name : List Char
  email : List Char
  phone : List Char
  location : List Char
  linkedin : List Char
deriving DecidableEq

/-- One experience entry of the structured resume (§3). -/
structure ExperienceEntry where
  title : List Char
  company : List Char
  duration : List Char
  details : List (List Char)
deriving DecidableEq

/-- One education entry of the structured resume (§3). -/
structure EducationEntry where
  degree : List Char
  institution : List Char
  year : List Char
  details : List Char
deriving DecidableEq

/-- One project entry of the structured resume (§3). -/
structure ProjectEntry where
  name : List Char
  description : List Char
  technologies : List (List Char)
deriving DecidableEq

/-- The structured-resume record (§3 StructuredResume), fields optional as
for `AnalysisData`. -/
structure StructuredData where
  personal_info : Option PersonalInfo
  summary : Option (List Char)
  experience : Option (List ExperienceEntry)
  education : Option (List EducationEntry)
  skills : Option (List (List Char))
  certifications : Option (List (List Char))
  projects : Option (List ProjectEntry)
deriving DecidableEq

/-- The structured record with every field absent. -/
def StructuredData.empty : StructuredData := ⟨none, none, none, none, none, none, none⟩

/-- The ATS/jargon record (§3 AtsResult), fields optional as above. -/
structure AtsData where
  jargon_detected : Option (List (List Char))
  filler_phrases : Option (List (List Char))
  ats_recommendations : Option (List (List Char))
  keyword_suggestions : Option (List (List Char))
  formatting_issues : Option (List (List Char))
deriving DecidableEq

/-- The ATS record with every field absent. -/
def AtsData.empty : AtsData := ⟨none, none, none, none, none⟩

/-- The returned report artifact: the built story plus the `io.BytesIO`
read position after `buffer.seek(0)`.  The serialization of the story to
PDF bytes (`doc.build`) is external reportlab behaviour. -/
structure ReportBuffer where
  story : List Flowable
  pos : Nat
deriving DecidableEq

/-- Bullet-line text `• <text>` as rendered for each list item. -/
def bullet (s : List Char) : List Char := "• ".data ++ s

/-- Decimal rendering of an integer, Python `str(int)`. -/
def intStr (n : Int) : List Char := (toString n).data

/-- The interpolated quality-score text: the score value, or the literal
`N/A` default of `analysis_data.get('resume_quality_score', 'N/A')`. -/
def scoreText (a : AnalysisData) : List Char :=
  match a.resume_quality_score with
  | some n => intStr n
  | none => "N/A".data

/-- Embedding of `generate_pdf_report` (src/main.py:140-210): the story is
assembled block by block, the document is built from it, and the buffer is
rewound to offset 0 before being returned. -/
def generate_pdf_report (analysis_data : AnalysisData) (structured_data : StructuredData)
    (ats_data : AtsData) : ReportBuffer :=
  let story : List Flowable :=
    [.paragraph "Resume Analysis Report".data .customTitle, .spacer 1 20]
  let story := story ++
    [.paragraph ("<b>Resume Quality Score: ".data ++ scoreText analysis_data ++
        "/100</b>".data) .heading2,
     .spacer 1 12]
  let sections := analysis_data.sections_detected.getD []
  let story := story ++ [.paragraph "<b>Sections Detected:</b>".data .heading3] ++
    sections.map (fun s => .paragraph (bullet s) .normal) ++ [.spacer 1 12]
  let missing := analysis_data.missing_sections.getD []
  let story := story ++
    (if missing = [] then [] else
      [.paragraph "<b>Missing Sections:</b>".data .heading3] ++
        missing.map (fun s => .paragraph (bullet s) .normal) ++ [.spacer 1 12])
  let sentiment := analysis_data.skills_sentiment_summary.getD []
  let story := story ++
    (if sentiment = [] then [] else
      [.paragraph "<b>Skills Sentiment Analysis:</b>".data .heading3,
       .paragraph sentiment .normal, .spacer 1 12])
  let suggestions := analysis_data.improvement_suggestions.getD []
  let story := story ++
    (if suggestions = [] then [] else
      [.paragraph "<b>Improvement Suggestions:</b>".data .heading3] ++
        suggestions.map (fun s => .paragraph (bullet s) .normal) ++ [.spacer 1 12])
  let ats_recs := ats_data.ats_recommendations.getD []
  let story := story ++
    (if ats_recs = [] then [] else
      [.paragraph "<b>ATS-Friendly Recommendations:</b>".data .heading3] ++
        ats_recs.map (fun s => .paragraph (bullet s) .normal) ++ [.spacer 1 12])
  let jargon := ats_data.jargon_detected.getD []
  let story := story ++
    (if jargon = [] then [] else
      [.paragraph "<b>Jargon/Filler Phrases Detected:</b>".data .heading3] ++
        jargon.map (fun s => .paragraph (bullet s) .normal))
  { story := story, pos := 0 }

/-- The bullet paragraphs rendered for a list of strings. -/
def bulletsOf (l : List (List Char)) : List Flowable :=
  l.map (fun s => Flowable.paragraph (bullet s) .normal)

/-- The Missing Sections heading block, for locating that conditional list
in a story. -/
def missingHeadingPara : Flowable := .paragraph "<b>Missing Sections:</b>".data .heading3

/-- The bullets of the Missing Sections block of a story: everything
between the Missing Sections heading and the following spacer. -/
def missingBulletsOf (fl : List Flowable) : List Flowable :=
  ((fl.dropWhile (fun f => f ≠ missingHeadingPara)).drop 1).takeWhile
    (fun f => f ≠ Flowable.spacer 1 12)

/-- The Jargon/Filler heading block (rendered from `jargon_detected` only). -/
def jargonHeadingPara : Flowable :=
  .paragraph "<b>Jargon/Filler Phrases Detected:</b>".data .heading3

/-! ### Helper lemmas on the string primitives -/

theorem lstrip_cons_of_ws {c : Char} (l : List Char) (h : pyWs c = true) :
    lstrip (c :: l) = lstrip l := by
  simp [lstrip, List.dropWhile_cons, h]

theorem lstrip_cons_of_not_ws {c : Char} (l : List Char) (h : pyWs c = false) :
    lstrip (c :: l) = c :: l := by
  simp [lstrip, List.dropWhile_cons, h]

theorem rstrip_append_of_ws {c : Char} (l : List Char) (h : pyWs c = true) :
    rstrip (l ++ [c]) = rstrip l := by
  simp [rstrip, List.reverse_append, List.dropWhile_cons, h]

theorem rstrip_append_of_not_ws {c : Char} (l : List Char) (h : pyWs c = false) :
    rstrip (l ++ [c]) = l ++ [c] := by
  simp [rstrip, List.reverse_append, List.dropWhile_cons, h]

/-! ### Claim C4: empty extraction halts the pipeline before any call -/

/-- C4: an extracted text that is empty or whitespace-only makes the
driver report an extraction failure and stop before issuing any of the
three model calls, and the extraction-failure outcome occurs exactly in
that case. -/
theorem empty_extraction_halts_before_calls
    (resume_text : List Char) (o1 o2 o3 : ModelOutcome) :
    (pstrip resume_text = [] →
      runPipeline resume_text o1 o2 o3 = (.extractionFailure, [])) ∧
    ((runPipeline resume_text o1 o2 o3).1 = .extractionFailure ↔
      pstrip resume_text = []) := by
  constructor
  · intro h
    simp [runPipeline, h]
  · constructor
    · intro h
      by_contra hne
      simp [runPipeline, hne] at h
    · intro h
      simp [runPipeline, h]

/-- Witness for C4 at the concrete whitespace-only extracted text. -/
theorem empty_extraction_halts_before_calls_w :
    runPipeline "  \n".data (.reply "a".data) (.reply "b".data) (.reply "c".data) =
      (.extractionFailure, []) :=
  (empty_extraction_halts_before_calls "  \n".data _ _ _).1 (by decide)

/-! ### Claim C2: which records the rendered report depends on -/

/-- C2 as stated is false: no choice of inputs makes the rendered report
depend on the StructuredResume record, because `generate_pdf_report`
accepts `structured_data` but never reads it. -/
theorem report_independent_of_structured_cex :
    ¬ ∃ (a : AnalysisData) (t : AtsData) (s1 s2 : StructuredData),
        generate_pdf_report a s1 t ≠ generate_pdf_report a s2 t := by
  rintro ⟨a, t, s1, s2, h⟩
  exact h rfl

/-- C2 amended: the report combines the quality and ATS records (changing
either alone can change the output), but it is invariant under every
change of the StructuredResume record alone, which the renderer ignores. -/
theorem report_combines_quality_and_ats :
    (∀ (a : AnalysisData) (t : AtsData) (s1 s2 : StructuredData),
        generate_pdf_report a s1 t = generate_pdf_report a s2 t) ∧
    (∃ (a1 a2 : AnalysisData) (s : StructuredData) (t : AtsData),
        generate_pdf_report a1 s t ≠ generate_pdf_report a2 s t) ∧
    (∃ (a : AnalysisData) (s : StructuredData) (t1 t2 : AtsData),
        generate_pdf_report a s t1 ≠ generate_pdf_report a s t2) := by
  refine ⟨fun a t s1 s2 => rfl, ?_, ?_⟩
  · exact ⟨AnalysisData.empty, ⟨none, none, none, some 5, none, none⟩,
      StructuredData.empty, AtsData.empty, by decide⟩
  · exact ⟨AnalysisData.empty, StructuredData.empty, AtsData.empty,
      ⟨some ["buzzword".data], none, none, none, none⟩, by decide⟩

/-! ### Claim C6: report on all-empty records -/

/-- C6: for every input the story carries the unconditional Sections
Detected heading and the buffer is rewound to position 0, and with all
three records empty the story is still non-empty and contains the title
block and that heading. -/
theorem empty_records_report_nonempty :
    (∀ (a : AnalysisData) (s : StructuredData) (t : AtsData),
        Flowable.paragraph "<b>Sections Detected:</b>".data .heading3 ∈
          (generate_pdf_report a s t).story ∧
        (generate_pdf_report a s t).pos = 0) ∧
    ((generate_pdf_report AnalysisData.empty StructuredData.empty AtsData.empty).story ≠ [] ∧
      Flowable.paragraph "Resume Analysis Report".data .customTitle ∈
        (generate_pdf_report AnalysisData.empty StructuredData.empty AtsData.empty).story ∧
      Flowable.paragraph "<b>Sections Detected:</b>".data .heading3 ∈
        (generate_pdf_report AnalysisData.empty StructuredData.empty AtsData.empty).story) := by
  refine ⟨fun a s t => ⟨?_, rfl⟩, by decide, by decide, by decide⟩
  simp [generate_pdf_report]

/-! ### Claim C7: the quality-score line -/

/-- C7: the third story block is always the bold quality-score line
`Resume Quality Score: X/100` with the record's score interpolated, and
the interpolated text is the decimal score when present and the literal
`N/A` when the field is absent (the renderer stays total either way). -/
theorem quality_score_line (a : AnalysisData) (s : StructuredData) (t : AtsData) :
    ((generate_pdf_report a s t).story[2]? =
      some (.paragraph ("<b>Resume Quality Score: ".data ++ scoreText a ++
        "/100</b>".data) .heading2)) ∧
    (∀ n, a.resume_quality_score = some n → scoreText a = intStr n) ∧
    (a.resume_quality_score = none → scoreText a = "N/A".data) := by
  refine ⟨?_, fun n h => by simp [scoreText, h], fun h => by simp [scoreText, h]⟩
  simp [generate_pdf_report]

/-- Witness for C7: score 87 renders as `87/100`; an absent score renders
as `N/A`. -/
theorem quality_score_line_w :
    ((generate_pdf_report ⟨none, none, none, some 87, none, none⟩
        StructuredData.empty AtsData.empty).story[2]? =
      some (.paragraph "<b>Resume Quality Score: 87/100</b>".data .heading2)) ∧
    scoreText AnalysisData.empty = "N/A".data := by
  constructor
  · rw [(quality_score_line ⟨none, none, none, some 87, none, none⟩
      StructuredData.empty AtsData.empty).1]
    rfl
  · exact (quality_score_line AnalysisData.empty StructuredData.empty AtsData.empty).2.2 rfl

/-! ### Helper lemmas on story structure -/

theorem dropWhile_append_of_all {α : Type} (p : α → Bool) (l1 l2 : List α)
    (h : ∀ x ∈ l1, p x = true) :
    (l1 ++ l2).dropWhile p = l2.dropWhile p := by
  induction l1 with
  | nil => rfl
  | cons a l ih =>
    simp only [List.cons_append, List.dropWhile_cons, h a (List.mem_cons_self a l)]
    exact ih (fun x hx => h x (List.mem_cons_of_mem a hx))

theorem takeWhile_append_stop {α : Type} (p : α → Bool) (l1 : List α) (s : α) (l2 : List α)
    (h : ∀ x ∈ l1, p x = true) (hs : p s = false) :
    (l1 ++ s :: l2).takeWhile p = l1 := by
  induction l1 with
  | nil => simp [List.takeWhile_cons, hs]
  | cons a l ih =>
    simp only [List.cons_append, List.takeWhile_cons, h a (List.mem_cons_self a l)]
    simp [ih (fun x hx => h x (List.mem_cons_of_mem a hx))]

theorem dropWhile_ne_append {α : Type} [DecidableEq α] (hd : α) (l1 l2 : List α)
    (h : hd ∉ l1) :
    (l1 ++ l2).dropWhile (fun f => f ≠ hd) = l2.dropWhile (fun f => f ≠ hd) := by
  apply dropWhile_append_of_all
  intro x hx
  simp only [decide_eq_true_eq]
  exact fun heq => h (heq ▸ hx)

theorem takeWhile_ne_stop {α : Type} [DecidableEq α] (stop : α) (l1 l2 : List α)
    (h : stop ∉ l1) :
    (l1 ++ stop :: l2).takeWhile (fun f => f ≠ stop) = l1 := by
  apply takeWhile_append_stop
  · intro x hx
    simp only [decide_eq_true_eq]
    exact fun heq => h (heq ▸ hx)
  · simp

/-- The story assembled by `generate_pdf_report`, flattened into its eight
blocks. -/
theorem story_shape (a : AnalysisData) (s : StructuredData) (t : AtsData) :
    (generate_pdf_report a s t).story =
      [Flowable.paragraph "Resume Analysis Report".data .customTitle, .spacer 1 20,
       .paragraph ("<b>Resume Quality Score: ".data ++ scoreText a ++ "/100</b>".data) .heading2,
       .spacer 1 12,
       .paragraph "<b>Sections Detected:</b>".data .heading3] ++
      bulletsOf (a.sections_detected.getD []) ++ [.spacer 1 12] ++
      (if a.missing_sections.getD [] = [] then [] else
        missingHeadingPara :: (bulletsOf (a.missing_sections.getD []) ++ [.spacer 1 12])) ++
      (if a.skills_sentiment_summary.getD [] = [] then [] else
        [.paragraph "<b>Skills Sentiment Analysis:</b>".data .heading3,
         .paragraph (a.skills_sentiment_summary.getD []) .normal, .spacer 1 12]) ++
      (if a.improvement_suggestions.getD [] = [] then [] else
        Flowable.paragraph "<b>Improvement Suggestions:</b>".data .heading3 ::
          (bulletsOf (a.improvement_suggestions.getD []) ++ [.spacer 1 12])) ++
      (if t.ats_recommendations.getD [] = [] then [] else
        Flowable.paragraph "<b>ATS-Friendly Recommendations:</b>".data .heading3 ::
          (bulletsOf (t.ats_recommendations.getD []) ++ [.spacer 1 12])) ++
      (if t.jargon_detected.getD [] = [] then [] else
        jargonHeadingPara :: bulletsOf (t.jargon_detected.getD [])) := by
  simp only [generate_pdf_report, bulletsOf, missingHeadingPara, jargonHeadingPara]
  split_ifs <;> simp

theorem para_not_in_bulletsOf (txt : List Char) (st : PStyle) (h : st ≠ PStyle.normal)
    (l : List (List Char)) :
    Flowable.paragraph txt st ∉ bulletsOf l := by
  simp only [bulletsOf, List.mem_map, not_exists]
  rintro x ⟨-, heq⟩
  rw [Flowable.paragraph.injEq] at heq
  exact h heq.2.symm

theorem count_para_bulletsOf_ne_style (txt : List Char) (st : PStyle)
    (h : st ≠ PStyle.normal) (l : List (List Char)) :
    (bulletsOf l).count (Flowable.paragraph txt st) = 0 :=
  List.count_eq_zero.mpr (para_not_in_bulletsOf txt st h l)

theorem count_bullet_bulletsOf (x : List Char) (l : List (List Char)) :
    (bulletsOf l).count (Flowable.paragraph (bullet x) .normal) = l.count x := by
  induction l with
  | nil => rfl
  | cons a l ih =>
    simp only [bulletsOf, List.map_cons, List.count_cons] at *
    rw [ih]
    congr 1
    simp [bullet]

theorem count_para_bulletsOf_h3 (txt : List Char) (l : List (List Char)) :
    (bulletsOf l).count (Flowable.paragraph txt PStyle.heading3) = 0 :=
  count_para_bulletsOf_ne_style txt PStyle.heading3 (by simp) l

theorem para_h3_not_in_bulletsOf (txt : List Char) (l : List (List Char)) :
    Flowable.paragraph txt PStyle.heading3 ∉ bulletsOf l :=
  para_not_in_bulletsOf txt PStyle.heading3 (by simp) l

theorem spacer_not_in_bulletsOf (w hgt : Nat) (l : List (List Char)) :
    Flowable.spacer w hgt ∉ bulletsOf l := by
  simp [bulletsOf, List.mem_map]

theorem dropWhile_ne_eq_nil {α : Type} [DecidableEq α] (hd : α) (l : List α)
    (h : hd ∉ l) :
    l.dropWhile (fun f => f ≠ hd) = [] := by
  induction l with
  | nil => rfl
  | cons a l ih =>
    have ha : a ≠ hd := fun heq => h (heq ▸ List.mem_cons_self a l)
    rw [List.dropWhile_cons]
    simp only [decide_eq_true_eq]
    rw [if_pos ha]
    exact ih (fun hm => h (List.mem_cons_of_mem a hm))

theorem bullets_between (pre rest : List Flowable) (hd : Flowable) (m : List (List Char))
    (hpre : hd ∉ pre) :
    (((pre ++ hd :: (bulletsOf m ++ Flowable.spacer 1 12 :: rest)).dropWhile
        (fun f => f ≠ hd)).drop 1).takeWhile (fun f => f ≠ Flowable.spacer 1 12) =
      bulletsOf m := by
  rw [dropWhile_ne_append hd pre _ hpre]
  rw [List.dropWhile_cons]
  simp only [decide_eq_true_eq, ne_eq, not_true_eq_false, if_false, ite_false]
  rw [List.drop_one, List.tail_cons]
  exact takeWhile_ne_stop _ _ _ (spacer_not_in_bulletsOf 1 12 m)

/-! ### Claim C5: the Missing Sections block -/

set_option maxHeartbeats 3000000 in
/-- C5: the Missing Sections heading appears in the story exactly once
when `missing_sections` is non-empty and not at all when it is empty; the
block's bullets are exactly one `• <text>` paragraph per element in
order; the Improvement Suggestions block likewise appears exactly when
its list is non-empty; and in the one-element `Certifications` scenario
(when no other rendered list or the sentiment paragraph also produces
that bullet) the whole report carries exactly one `• Certifications`
bullet. -/
theorem missing_sections_block (a : AnalysisData) (s : StructuredData) (t : AtsData) :
    ((generate_pdf_report a s t).story.count missingHeadingPara =
      if a.missing_sections.getD [] = [] then 0 else 1) ∧
    ((generate_pdf_report a s t).story.count
        (Flowable.paragraph "<b>Improvement Suggestions:</b>".data .heading3) =
      if a.improvement_suggestions.getD [] = [] then 0 else 1) ∧
    (missingBulletsOf (generate_pdf_report a s t).story =
      bulletsOf (a.missing_sections.getD [])) ∧
    (a.missing_sections = some ["Certifications".data] →
      "Certifications".data ∉ a.sections_detected.getD [] →
      "Certifications".data ∉ a.improvement_suggestions.getD [] →
      "Certifications".data ∉ t.ats_recommendations.getD [] →
      "Certifications".data ∉ t.jargon_detected.getD [] →
      a.skills_sentiment_summary.getD [] ≠ bullet "Certifications".data →
      (generate_pdf_report a s t).story.count
        (Flowable.paragraph (bullet "Certifications".data) .normal) = 1) := by
  refine ⟨?_, ?_, ?_, ?_⟩
  · rw [story_shape]
    by_cases hm : a.missing_sections.getD [] = [] <;>
      simp [hm, List.count_append, List.count_cons, count_para_bulletsOf_h3,
        missingHeadingPara, Flowable.paragraph.injEq] <;>
      split_ifs <;>
      simp_all [List.count_cons, List.count_append, count_para_bulletsOf_h3,
        jargonHeadingPara, Flowable.paragraph.injEq]
  · rw [story_shape]
    by_cases hsu : a.improvement_suggestions.getD [] = [] <;>
      simp [hsu, List.count_append, List.count_cons, count_para_bulletsOf_h3,
        missingHeadingPara, Flowable.paragraph.injEq] <;>
      split_ifs <;>
      simp_all [List.count_cons, List.count_append, count_para_bulletsOf_h3,
        jargonHeadingPara, Flowable.paragraph.injEq]
  · by_cases hm : a.missing_sections.getD [] = []
    · have hnot : missingHeadingPara ∉ (generate_pdf_report a s t).story := by
        rw [story_shape]
        split_ifs <;>
          simp_all [missingHeadingPara, jargonHeadingPara, Flowable.paragraph.injEq,
            para_h3_not_in_bulletsOf]
      rw [missingBulletsOf, dropWhile_ne_eq_nil _ _ hnot]
      simp [hm, bulletsOf]
    · have hstory : (generate_pdf_report a s t).story =
          ([Flowable.paragraph "Resume Analysis Report".data .customTitle, .spacer 1 20,
            .paragraph ("<b>Resume Quality Score: ".data ++ scoreText a ++
              "/100</b>".data) .heading2,
            .spacer 1 12,
            .paragraph "<b>Sections Detected:</b>".data .heading3] ++
           bulletsOf (a.sections_detected.getD []) ++ [Flowable.spacer 1 12]) ++
          missingHeadingPara :: (bulletsOf (a.missing_sections.getD []) ++
            Flowable.spacer 1 12 ::
            ((if a.skills_sentiment_summary.getD [] = [] then [] else
              [Flowable.paragraph "<b>Skills Sentiment Analysis:</b>".data .heading3,
               .paragraph (a.skills_sentiment_summary.getD []) .normal, .spacer 1 12]) ++
             (if a.improvement_suggestions.getD [] = [] then [] else
               Flowable.paragraph "<b>Improvement Suggestions:</b>".data .heading3 ::
                 (bulletsOf (a.improvement_suggestions.getD []) ++ [.spacer 1 12])) ++
             (if t.ats_recommendations.getD [] = [] then [] else
               Flowable.paragraph "<b>ATS-Friendly Recommendations:</b>".data .heading3 ::
                 (bulletsOf (t.ats_recommendations.getD []) ++ [.spacer 1 12])) ++
             (if t.jargon_detected.getD [] = [] then [] else
               jargonHeadingPara :: bulletsOf (t.jargon_detected.getD [])))) := by
        rw [story_shape, if_neg hm]
        simp [List.append_assoc]
      have hpre : missingHeadingPara ∉
          ([Flowable.paragraph "Resume Analysis Report".data .customTitle, .spacer 1 20,
            .paragraph ("<b>Resume Quality Score: ".data ++ scoreText a ++
              "/100</b>".data) .heading2,
            .spacer 1 12,
            .paragraph "<b>Sections Detected:</b>".data .heading3] ++
           bulletsOf (a.sections_detected.getD []) ++ [Flowable.spacer 1 12]) := by
        simp [missingHeadingPara, Flowable.paragraph.injEq, para_h3_not_in_bulletsOf]
      rw [missingBulletsOf, hstory]
      exact bullets_between _ _ _ _ hpre
  · intro ha h1 h2 h3 h4 h5
    rw [story_shape, ha]
    split_ifs <;>
      simp_all [List.count_append, List.count_cons, count_bullet_bulletsOf,
        List.count_eq_zero.mpr h1, List.count_eq_zero.mpr h2, List.count_eq_zero.mpr h3,
        List.count_eq_zero.mpr h4, missingHeadingPara, jargonHeadingPara,
        Flowable.paragraph.injEq, Ne.symm h5]

/-- Witness for C5: the one-element `Certifications` scenario with all
other lists empty. -/
theorem missing_sections_block_w :
    ((generate_pdf_report ⟨none, some ["Certifications".data], none, none, none, none⟩
        StructuredData.empty AtsData.empty).story.count missingHeadingPara = 1) ∧
    (missingBulletsOf (generate_pdf_report ⟨none, some ["Certifications".data], none, none,
        none, none⟩ StructuredData.empty AtsData.empty).story =
      bulletsOf ["Certifications".data]) ∧
    ((generate_pdf_report ⟨none, some ["Certifications".data], none, none, none, none⟩
        StructuredData.empty AtsData.empty).story.count
      (Flowable.paragraph (bullet "Certifications".data) .normal) = 1) := by
  have h := missing_sections_block
    ⟨none, some ["Certifications".data], none, none, none, none⟩
    StructuredData.empty AtsData.empty
  refine ⟨?_, h.2.2.1, h.2.2.2 rfl (by decide) (by decide) (by decide) (by decide)
    (by decide)⟩
  have h1 := h.1
  simpa using h1

/-! ### Claim C9: the jargon block -/

set_option maxHeartbeats 1000000 in
/-- C9: the Jargon/Filler block is present exactly when `jargon_detected`
is non-empty, its bullets are built from `jargon_detected` only (one
bullet per element in order), and replacing `filler_phrases` by anything
never changes the rendered report. -/
theorem jargon_block_from_jargon_detected (a : AnalysisData) (s : StructuredData)
    (t : AtsData) :
    (jargonHeadingPara ∈ (generate_pdf_report a s t).story ↔
      t.jargon_detected.getD [] ≠ []) ∧
    (((generate_pdf_report a s t).story.dropWhile (fun f => f ≠ jargonHeadingPara)).drop 1 =
      bulletsOf (t.jargon_detected.getD [])) ∧
    (∀ fp, generate_pdf_report a s
        ⟨t.jargon_detected, fp, t.ats_recommendations, t.keyword_suggestions,
          t.formatting_issues⟩ = generate_pdf_report a s t) := by
  have hnotpre : ∀ hj : t.jargon_detected.getD [] = [],
      jargonHeadingPara ∉ (generate_pdf_report a s t).story := by
    intro hj
    rw [story_shape]
    split_ifs <;>
      simp_all [missingHeadingPara, jargonHeadingPara, Flowable.paragraph.injEq,
        para_h3_not_in_bulletsOf]
  refine ⟨?_, ?_, fun fp => rfl⟩
  · constructor
    · intro hmem hj
      exact hnotpre hj hmem
    · intro hj
      rw [story_shape, if_neg hj]
      simp
  · by_cases hj : t.jargon_detected.getD [] = []
    · rw [dropWhile_ne_eq_nil _ _ (hnotpre hj)]
      simp [hj, bulletsOf]
    · have hstory : (generate_pdf_report a s t).story =
          ([Flowable.paragraph "Resume Analysis Report".data .customTitle, .spacer 1 20,
            .paragraph ("<b>Resume Quality Score: ".data ++ scoreText a ++
              "/100</b>".data) .heading2,
            .spacer 1 12,
            .paragraph "<b>Sections Detected:</b>".data .heading3] ++
           bulletsOf (a.sections_detected.getD []) ++ [Flowable.spacer 1 12] ++
           (if a.missing_sections.getD [] = [] then [] else
             missingHeadingPara :: (bulletsOf (a.missing_sections.getD []) ++
               [Flowable.spacer 1 12])) ++
           (if a.skills_sentiment_summary.getD [] = [] then [] else
             [Flowable.paragraph "<b>Skills Sentiment Analysis:</b>".data .heading3,
              .paragraph (a.skills_sentiment_summary.getD []) .normal, .spacer 1 12]) ++
           (if a.improvement_suggestions.getD [] = [] then [] else
             Flowable.paragraph "<b>Improvement Suggestions:</b>".data .heading3 ::
               (bulletsOf (a.improvement_suggestions.getD []) ++ [.spacer 1 12])) ++
           (if t.ats_recommendations.getD [] = [] then [] else
             Flowable.paragraph "<b>ATS-Friendly Recommendations:</b>".data .heading3 ::
               (bulletsOf (t.ats_recommendations.getD []) ++ [.spacer 1 12]))) ++
          jargonHeadingPara :: bulletsOf (t.jargon_detected.getD []) := by
        rw [story_shape, if_neg hj]
      have hpre : jargonHeadingPara ∉
          ([Flowable.paragraph "Resume Analysis Report".data .customTitle, .spacer 1 20,
            .paragraph ("<b>Resume Quality Score: ".data ++ scoreText a ++
              "/100</b>".data) .heading2,
            .spacer 1 12,
            .paragraph "<b>Sections Detected:</b>".data .heading3] ++
           bulletsOf (a.sections_detected.getD []) ++ [Flowable.spacer 1 12] ++
           (if a.missing_sections.getD [] = [] then [] else
             missingHeadingPara :: (bulletsOf (a.missing_sections.getD []) ++
               [Flowable.spacer 1 12])) ++
           (if a.skills_sentiment_summary.getD [] = [] then [] else
             [Flowable.paragraph "<b>Skills Sentiment Analysis:</b>".data .heading3,
              .paragraph (a.skills_sentiment_summary.getD []) .normal, .spacer 1 12]) ++
           (if a.improvement_suggestions.getD [] = [] then [] else
             Flowable.paragraph "<b>Improvement Suggestions:</b>".data .heading3 ::
               (bulletsOf (a.improvement_suggestions.getD []) ++ [.spacer 1 12])) ++
           (if t.ats_recommendations.getD [] = [] then [] else
             Flowable.paragraph "<b>ATS-Friendly Recommendations:</b>".data .heading3 ::
               (bulletsOf (t.ats_recommendations.getD []) ++ [.spacer 1 12]))) := by
        split_ifs <;>
          simp_all [missingHeadingPara, jargonHeadingPara, Flowable.paragraph.injEq,
            para_h3_not_in_bulletsOf]
      rw [hstory, dropWhile_ne_append _ _ _ hpre, List.dropWhile_cons]
      simp only [decide_eq_true_eq, ne_eq, not_true_eq_false, if_false, ite_false]
      rw [List.drop_one, List.tail_cons]

/-- Witness for C9 at a concrete ATS record with one jargon phrase and one
filler phrase. -/
theorem jargon_block_from_jargon_detected_w :
    (jargonHeadingPara ∈ (generate_pdf_report AnalysisData.empty StructuredData.empty
        ⟨some ["synergy".data], some ["go-getter".data], none, none, none⟩).story) ∧
    (((generate_pdf_report AnalysisData.empty StructuredData.empty
        ⟨some ["synergy".data], some ["go-getter".data], none, none, none⟩).story.dropWhile
          (fun f => f ≠ jargonHeadingPara)).drop 1 =
      bulletsOf ["synergy".data]) ∧
    (generate_pdf_report AnalysisData.empty StructuredData.empty
        ⟨some ["synergy".data], some ["other filler".data], none, none, none⟩ =
      generate_pdf_report AnalysisData.empty StructuredData.empty
        ⟨some ["synergy".data], some ["go-getter".data], none, none, none⟩) := by
  have h := jargon_block_from_jargon_detected AnalysisData.empty StructuredData.empty
    ⟨some ["synergy".data], some ["go-getter".data], none, none, none⟩
  exact ⟨h.1.mpr (by decide), h.2.1, h.2.2 (some ["other filler".data])⟩

/-! ### Helper lemmas on the replace scanner -/

theorem isPrefixOf_append_self (l m : List Char) : l.isPrefixOf (l ++ m) = true :=
  List.isPrefixOf_iff_prefix.mpr (List.prefix_append l m)

theorem isPrefixOf_append_of_le (pat l m : List Char) (h : pat.length ≤ l.length) :
    pat.isPrefixOf (l ++ m) = pat.isPrefixOf l := by
  induction pat generalizing l with
  | nil => simp [List.isPrefixOf]
  | cons p ps ih =>
    cases l with
    | nil => simp at h
    | cons a l' =>
      simp only [List.cons_append, List.isPrefixOf, List.append_eq]
      rw [ih l' (Nat.le_of_succ_le_succ h)]

theorem raGo_skip (pat rep : List Char) (k : Nat) (l : List Char) :
    raGo pat rep k l = raGo pat rep 0 (l.drop k) := by
  induction l generalizing k with
  | nil => cases k <;> rfl
  | cons c cs ih =>
    cases k with
    | zero => rfl
    | succ k' =>
      rw [List.drop_succ_cons]
      show raGo pat rep k' cs = _
      exact ih k'

theorem raGo_fire (p : Char) (ps rep v : List Char) :
    raGo (p :: ps) rep 0 ((p :: ps) ++ v) = rep ++ raGo (p :: ps) rep 0 v := by
  show raGo (p :: ps) rep 0 (p :: (ps ++ v)) = _
  rw [raGo]
  rw [if_pos ⟨List.cons_ne_nil p ps, isPrefixOf_append_self (p :: ps) v⟩]
  congr 1
  rw [raGo_skip]
  simp [List.drop_left]

theorem raGo_keep (pat rep : List Char) (c : Char) (cs : List Char)
    (h : pat.isPrefixOf (c :: cs) = false) :
    raGo pat rep 0 (c :: cs) = c :: raGo pat rep 0 cs := by
  rw [raGo]
  rw [if_neg (fun hc => by rw [h] at hc; exact Bool.false_ne_true hc.2)]

theorem raGo_noOcc (pat rep : List Char) (l : List Char)
    (h : containsSub pat l = false) :
    raGo pat rep 0 l = l := by
  induction l with
  | nil => rfl
  | cons c cs ih =>
    rw [containsSub, Bool.or_eq_false_iff] at h
    rw [raGo_keep pat rep c cs h.1, ih h.2]

theorem bt3_eq : bt3 = '`' :: '`' :: '`' :: [] := rfl

theorem bt7_eq : bt7 = '`' :: '`' :: '`' :: 'j' :: 's' :: 'o' :: 'n' :: [] := rfl

theorem bt3_not_prefixOf_cross (c : Char) (t' rest : List Char)
    (hpre : bt3.isPrefixOf (c :: t') = false) :
    bt3.isPrefixOf (c :: (t' ++ '\n' :: rest)) = false := by
  match t' with
  | [] =>
    cases hc : ('`' == c) <;> simp [bt3_eq, List.isPrefixOf, hc]
  | [d] =>
    cases hc : ('`' == c) <;> cases hd : ('`' == d) <;>
      simp [bt3_eq, List.isPrefixOf, hc, hd]
  | d1 :: d2 :: t'' =>
    rw [show c :: (d1 :: d2 :: t'' ++ '\n' :: rest) =
      (c :: d1 :: d2 :: t'') ++ '\n' :: rest from rfl]
    rw [isPrefixOf_append_of_le _ _ _ (by simp [bt3_eq])]
    exact hpre

theorem raGo_bt3_through (rep t l : List Char) (ht : containsSub bt3 t = false) :
    raGo bt3 rep 0 (t ++ '\n' :: l) = t ++ '\n' :: raGo bt3 rep 0 l := by
  induction t with
  | nil =>
    rw [List.nil_append, raGo_keep _ _ _ _ (by rfl)]
    rfl
  | cons c t' ih =>
    rw [containsSub, Bool.or_eq_false_iff] at ht
    rw [List.cons_append,
      raGo_keep _ _ _ _ (bt3_not_prefixOf_cross c t' l ht.1), ih ht.2]
    rfl

theorem bt7_isPrefixOf_implies_bt3 (l : List Char) (h : bt7.isPrefixOf l = true) :
    bt3.isPrefixOf l = true := by
  match l with
  | [] => simp [bt7_eq, List.isPrefixOf] at h
  | [a] => rw [bt7_eq, List.isPrefixOf] at h; revert h; cases ('`' == a) <;> simp [List.isPrefixOf]
  | [a, b] =>
    rw [bt7_eq] at h
    simp only [List.isPrefixOf, Bool.and_eq_true] at h
    exact absurd h.2.2 Bool.false_ne_true
  | a :: b :: c :: rest =>
    rw [bt7_eq] at h
    simp only [List.isPrefixOf, Bool.and_eq_true] at h
    simp [bt3_eq, List.isPrefixOf, h.1, h.2.1, h.2.2.1]

theorem no_bt7_in_tail (t : List Char) (ht : containsSub bt3 t = false) :
    containsSub bt7 (t ++ '\n' :: bt3) = false := by
  induction t with
  | nil => decide
  | cons c t' ih =>
    rw [containsSub, Bool.or_eq_false_iff] at ht
    rw [List.cons_append, containsSub, Bool.or_eq_false_iff]
    refine ⟨?_, ih ht.2⟩
    by_contra hb
    rw [Bool.not_eq_false] at hb
    have h3 := bt7_isPrefixOf_implies_bt3 _ hb
    rw [bt3_not_prefixOf_cross c t' bt3 ht.1] at h3
    exact Bool.false_ne_true h3

theorem isPrefixOf_cons_cons (a b : Char) (as bs : List Char) :
    (a :: as).isPrefixOf (b :: bs) = (a == b && as.isPrefixOf bs) := rfl

theorem isPrefixOf_cons_nil (a : Char) (as : List Char) :
    (a :: as).isPrefixOf ([] : List Char) = false := rfl

theorem beq_char_false_of_ne {a b : Char} (h : b ≠ a) : (a == b) = false := by
  cases hab : (a == b)
  · rfl
  · exact absurd (eq_of_beq hab).symm h

theorem raGo_bt3_clean (l : List Char) :
    containsSub bt3 (raGo bt3 [] 0 l) = false := by
  by_cases h : bt3.isPrefixOf l = true
  · obtain ⟨v, hv⟩ := List.isPrefixOf_iff_prefix.mp h
    rw [← hv, bt3_eq, raGo_fire, ← bt3_eq, List.nil_append]
    exact raGo_bt3_clean v
  · rw [Bool.not_eq_true] at h
    cases l with
    | nil => rfl
    | cons c cs =>
      rw [raGo_keep _ _ _ _ h, containsSub, Bool.or_eq_false_iff]
      refine ⟨?_, raGo_bt3_clean cs⟩
      by_cases hc : c = '`'
      · subst hc
        cases cs with
        | nil => rfl
        | cons d cs' =>
          by_cases hd : d = '`'
          · subst hd
            rw [bt3_eq, isPrefixOf_cons_cons, isPrefixOf_cons_cons] at h
            simp only [beq_self_eq_true, Bool.true_and] at h
            cases cs' with
            | nil => rfl
            | cons e cs'' =>
              rw [isPrefixOf_cons_cons] at h
              have he : ('`' == e) = false := by
                revert h
                cases hbe : ('`' == e) <;> simp
              have hkeep1 : bt3.isPrefixOf ('`' :: e :: cs'') = false := by
                rw [bt3_eq, isPrefixOf_cons_cons, isPrefixOf_cons_cons, he]
                simp
              have hkeep2 : bt3.isPrefixOf (e :: cs'') = false := by
                rw [bt3_eq, isPrefixOf_cons_cons, he]
                simp
              rw [raGo_keep _ _ _ _ hkeep1, raGo_keep _ _ _ _ hkeep2]
              rw [bt3_eq, isPrefixOf_cons_cons, isPrefixOf_cons_cons,
                isPrefixOf_cons_cons, he]
              simp
          · have hd' : ('`' == d) = false := beq_char_false_of_ne hd
            have hkeep : bt3.isPrefixOf (d :: cs') = false := by
              rw [bt3_eq, isPrefixOf_cons_cons, hd']
              simp
            rw [raGo_keep _ _ _ _ hkeep]
            rw [bt3_eq, isPrefixOf_cons_cons, isPrefixOf_cons_cons, hd']
            simp
      · rw [bt3_eq, isPrefixOf_cons_cons, beq_char_false_of_ne hc]
        simp
termination_by l.length
decreasing_by
  · have hlen := congrArg List.length hv
    simp only [List.length_append, bt3_eq, List.length_cons, List.length_nil] at hlen
    omega
  · simp
theorem pstrip_sandwich (c d : Char) (w : List Char) (hc : pyWs c = false)
    (hd : pyWs d = false) :
    pstrip (c :: (w ++ [d])) = c :: (w ++ [d]) := by
  rw [pstrip, lstrip_cons_of_not_ws _ hc,
    show c :: (w ++ [d]) = (c :: w) ++ [d] from rfl,
    rstrip_append_of_not_ws _ hd]

theorem pstrip_result (t t₂ u : List Char) (h1 : t = '{' :: t₂) (h2 : t = u ++ ['}']) :
    pstrip ('\n' :: (t ++ ['\n'])) = t := by
  have hl : lstrip (t ++ ['\n']) = t ++ ['\n'] := by
    rw [h1]
    exact lstrip_cons_of_not_ws _ rfl
  have hr : rstrip t = t := by
    rw [h2]
    exact rstrip_append_of_not_ws _ rfl
  have hw : pyWs '\n' = true := rfl
  rw [pstrip, lstrip_cons_of_ws _ hw, hl, rstrip_append_of_ws _ hw, hr]

theorem raGo_bt3_bt3 : raGo bt3 [] 0 bt3 = [] := rfl

theorem normalize_json_fenced (t t₂ u : List Char)
    (h1 : t = '{' :: t₂) (h2 : t = u ++ ['}']) (hNo : containsSub bt3 t = false) :
    normalizeReply ("```json\n".data ++ t ++ "\n```".data) = t := by
  have hform : "```json\n".data ++ t ++ "\n```".data = bt7 ++ '\n' :: (t ++ '\n' :: bt3) := by
    simp [bt7_eq, bt3_eq]
  rw [hform]
  have hps : pstrip (bt7 ++ '\n' :: (t ++ '\n' :: bt3)) =
      bt7 ++ '\n' :: (t ++ '\n' :: bt3) := by
    have hsh : bt7 ++ '\n' :: (t ++ '\n' :: bt3) =
        '`' :: (('`' :: '`' :: 'j' :: 's' :: 'o' :: 'n' :: '\n' ::
          (t ++ '\n' :: '`' :: '`' :: [])) ++ ['`']) := by
      simp [bt7_eq, bt3_eq]
    have hb : pyWs '`' = false := rfl
    rw [hsh, pstrip_sandwich _ _ _ hb hb, ← hsh]
  have hv : containsSub bt7 ('\n' :: (t ++ '\n' :: bt3)) = false := by
    rw [containsSub, no_bt7_in_tail t hNo]
    rfl
  simp only [normalizeReply]
  rw [hps, if_pos (isPrefixOf_append_self bt7 _)]
  rw [replaceAll, replaceAll, bt7_eq]
  rw [raGo_fire, ← bt7_eq, List.nil_append, raGo_noOcc _ _ _ hv]
  have hk : bt3.isPrefixOf ('\n' :: (t ++ '\n' :: bt3)) = false := rfl
  rw [raGo_keep _ _ _ _ hk, raGo_bt3_through [] t bt3 hNo, raGo_bt3_bt3]
  exact pstrip_result t t₂ u h1 h2

theorem normalize_bare_fenced (t t₂ u : List Char)
    (h1 : t = '{' :: t₂) (h2 : t = u ++ ['}']) (hNo : containsSub bt3 t = false) :
    normalizeReply ("```\n".data ++ t ++ "\n```".data) = t := by
  have hform : "```\n".data ++ t ++ "\n```".data = bt3 ++ '\n' :: (t ++ '\n' :: bt3) := by
    simp [bt3_eq]
  rw [hform]
  have hps : pstrip (bt3 ++ '\n' :: (t ++ '\n' :: bt3)) =
      bt3 ++ '\n' :: (t ++ '\n' :: bt3) := by
    have hsh : bt3 ++ '\n' :: (t ++ '\n' :: bt3) =
        '`' :: (('`' :: '`' :: '\n' :: (t ++ '\n' :: '`' :: '`' :: [])) ++ ['`']) := by
      simp [bt3_eq]
    have hb : pyWs '`' = false := rfl
    rw [hsh, pstrip_sandwich _ _ _ hb hb, ← hsh]
  have hb7 : bt7.isPrefixOf (bt3 ++ '\n' :: (t ++ '\n' :: bt3)) = false := by
    rw [bt3_eq, bt7_eq]
    rfl
  simp only [normalizeReply]
  rw [hps, hb7]
  simp only [Bool.false_eq_true, if_false]
  rw [if_pos (isPrefixOf_append_self bt3 _)]
  rw [replaceAll, bt3_eq]
  rw [raGo_fire, ← bt3_eq, List.nil_append]
  have hk : bt3.isPrefixOf ('\n' :: (t ++ '\n' :: bt3)) = false := rfl
  rw [raGo_keep _ _ _ _ hk, raGo_bt3_through [] t bt3 hNo, raGo_bt3_bt3]
  exact pstrip_result t t₂ u h1 h2

theorem normalize_unfenced (t t₂ u : List Char)
    (h1 : t = '{' :: t₂) (h2 : t = u ++ ['}']) :
    normalizeReply t = t := by
  have hps : pstrip t = t := by
    have hl : lstrip t = t := by
      rw [h1]
      exact lstrip_cons_of_not_ws _ rfl
    rw [pstrip, hl, h2]
    exact rstrip_append_of_not_ws _ rfl
  have hb7 : bt7.isPrefixOf t = false := by rw [h1]; rfl
  have hb3 : bt3.isPrefixOf t = false := by rw [h1]; rfl
  simp only [normalizeReply]
  rw [hps, hb7, hb3]
  simp

theorem isPrefixOf_append_extend (pat x y : List Char) (h : pat.isPrefixOf x = true) :
    pat.isPrefixOf (x ++ y) = true := by
  induction pat generalizing x with
  | nil => simp [List.isPrefixOf]
  | cons p ps ih =>
    cases x with
    | nil => exact absurd h (by rw [isPrefixOf_cons_nil]; exact Bool.false_ne_true)
    | cons a x' =>
      rw [isPrefixOf_cons_cons, Bool.and_eq_true] at h
      rw [List.cons_append, isPrefixOf_cons_cons, h.1, ih x' h.2]
      rfl

theorem containsSub_append_left_false (pat a b : List Char)
    (h : containsSub pat (a ++ b) = false) :
    containsSub pat a = false := by
  cases pat with
  | nil =>
    exfalso
    have htr : containsSub ([] : List Char) (a ++ b) = true := by
      cases hab : a ++ b with
      | nil => rw [containsSub]; rfl
      | cons c cs => rw [containsSub]; simp [List.isPrefixOf]
    rw [h] at htr
    exact Bool.false_ne_true htr
  | cons p ps =>
    induction a with
    | nil => rfl
    | cons c a' ih =>
      rw [List.cons_append, containsSub, Bool.or_eq_false_iff] at h
      rw [containsSub, Bool.or_eq_false_iff]
      constructor
      · by_contra hb
        rw [Bool.not_eq_false] at hb
        have := isPrefixOf_append_extend _ _ b hb
        rw [List.cons_append] at this
        rw [h.1] at this
        exact Bool.false_ne_true this
      · exact ih h.2

theorem containsSub_dropWhile_false (pat : List Char) (p : Char → Bool) (l : List Char)
    (h : containsSub pat l = false) :
    containsSub pat (l.dropWhile p) = false := by
  induction l with
  | nil => exact h
  | cons c cs ih =>
    rw [containsSub, Bool.or_eq_false_iff] at h
    rw [List.dropWhile_cons]
    by_cases hp : p c = true
    · rw [if_pos hp]
      exact ih h.2
    · rw [if_neg hp, containsSub, Bool.or_eq_false_iff]
      exact ⟨h.1, h.2⟩

theorem rstrip_is_prefixed (l : List Char) : ∃ w, l = rstrip l ++ w := by
  obtain ⟨u, hu⟩ := List.dropWhile_suffix (l := l.reverse) pyWs
  refine ⟨u.reverse, ?_⟩
  rw [rstrip]
  calc l = l.reverse.reverse := by rw [List.reverse_reverse]
    _ = (u ++ l.reverse.dropWhile pyWs).reverse := by rw [hu]
    _ = (l.reverse.dropWhile pyWs).reverse ++ u.reverse := by rw [List.reverse_append]

theorem containsSub_pstrip_false (pat l : List Char) (h : containsSub pat l = false) :
    containsSub pat (pstrip l) = false := by
  have h1 : containsSub pat (lstrip l) = false :=
    containsSub_dropWhile_false pat pyWs l h
  obtain ⟨w, hw⟩ := rstrip_is_prefixed (lstrip l)
  rw [pstrip]
  exact containsSub_append_left_false pat _ w (by rw [← hw]; exact h1)

/-! ### Claim C3: fence-stripping consistency -/

/-- C3 as stated is false: for the JSON object text `{"a": "x```y"}`,
whose string value contains a fence token, the bare-fenced reply form and
the unfenced form parse to different objects, because `.replace` deletes
the inner occurrence as well. -/
theorem fence_stripping_cex :
    json_loads (normalizeReply
        ("```\n".data ++ "\x7b\"a\": \"x```y\"\x7d".data ++ "\n```".data)) ≠
      json_loads (normalizeReply "\x7b\"a\": \"x```y\"\x7d".data) := by
  have h1 : json_loads (normalizeReply
      ("```\n".data ++ "\x7b\"a\": \"x```y\"\x7d".data ++ "\n```".data)) =
      some (Json.obj [("a".data, Json.str "xy".data)]) := rfl
  have h2 : json_loads (normalizeReply "\x7b\"a\": \"x```y\"\x7d".data) =
      some (Json.obj [("a".data, Json.str "x```y".data)]) := rfl
  rw [h1, h2]
  simp

/-- C3 amended: for every whitespace-stripped JSON object text (beginning
with `{` and ending with `}`) that contains no triple-backtick token, the
`json`-tagged fenced form, the bare fenced form and the unfenced form all
normalize to the text itself and therefore parse to the same JSON
object. -/
theorem fence_stripping_consistent (t : List Char) (o : List (List Char × Json))
    (hHead : t.head? = some '{') (hLast : t.getLast? = some '}')
    (hNoFence : containsSub bt3 t = false)
    (hParse : json_loads t = some (Json.obj o)) :
    json_loads (normalizeReply ("```json\n".data ++ t ++ "\n```".data)) =
      some (Json.obj o) ∧
    json_loads (normalizeReply ("```\n".data ++ t ++ "\n```".data)) =
      some (Json.obj o) ∧
    json_loads (normalizeReply t) = some (Json.obj o) := by
  obtain ⟨t₂, h1⟩ : ∃ t₂, t = '{' :: t₂ := by
    cases t with
    | nil => simp at hHead
    | cons a t₂ =>
      simp only [List.head?_cons, Option.some.injEq] at hHead
      exact ⟨t₂, by rw [hHead]⟩
  obtain ⟨u, h2⟩ := List.getLast?_eq_some_iff.mp hLast
  rw [normalize_json_fenced t t₂ u h1 h2 hNoFence,
    normalize_bare_fenced t t₂ u h1 h2 hNoFence,
    normalize_unfenced t t₂ u h1 h2]
  exact ⟨hParse, hParse, hParse⟩

/-- Witness for the amended C3 at the concrete object text `{"a": 1}`. -/
theorem fence_stripping_consistent_w :
    json_loads (normalizeReply ("```json\n".data ++ "\x7b\"a\": 1\x7d".data ++
        "\n```".data)) = some (Json.obj [("a".data, Json.num "1".data)]) ∧
    json_loads (normalizeReply ("```\n".data ++ "\x7b\"a\": 1\x7d".data ++
        "\n```".data)) = some (Json.obj [("a".data, Json.num "1".data)]) ∧
    json_loads (normalizeReply "\x7b\"a\": 1\x7d".data) =
      some (Json.obj [("a".data, Json.num "1".data)]) :=
  fence_stripping_consistent "\x7b\"a\": 1\x7d".data
    [("a".data, Json.num "1".data)] rfl rfl rfl rfl

/-! ### Claim C10: branch behaviour of the fence-removal step -/

/-- C10: if the stripped reply does not begin with a fence, no fence
removal happens at all (the result is exactly the stripped reply, so a
trailing-only fence survives into the JSON parser); if it does begin with
one, the replace step deletes every occurrence of the fence token, so no
occurrence remains anywhere in the normalized reply. -/
theorem fence_removal_branch_behavior (raw : List Char) :
    (bt3.isPrefixOf (pstrip raw) = false → normalizeReply raw = pstrip raw) ∧
    (bt3.isPrefixOf (pstrip raw) = true →
      containsSub bt3 (normalizeReply raw) = false) := by
  constructor
  · intro h
    have h7 : bt7.isPrefixOf (pstrip raw) = false := by
      by_contra hb
      rw [Bool.not_eq_false] at hb
      have h3 := bt7_isPrefixOf_implies_bt3 _ hb
      rw [h] at h3
      exact Bool.false_ne_true h3
    simp only [normalizeReply]
    rw [h, h7]
    simp
  · intro _
    simp only [normalizeReply]
    by_cases h7 : bt7.isPrefixOf (pstrip raw) = true
    · rw [if_pos h7]
      exact containsSub_pstrip_false _ _ (raGo_bt3_clean _)
    · rw [Bool.not_eq_true] at h7
      rw [h7]
      simp only [Bool.false_eq_true, if_false]
      rw [if_pos ‹bt3.isPrefixOf (pstrip raw) = true›]
      exact containsSub_pstrip_false _ _ (raGo_bt3_clean _)

/-- Witness for C10: a reply with only a trailing fence is left alone (and
then fails to parse), while a fenced reply with a fence token inside a
string value has every occurrence deleted. -/
theorem fence_removal_branch_behavior_w :
    (normalizeReply "\x7b\"a\": 1\x7d\n```".data = pstrip "\x7b\"a\": 1\x7d\n```".data ∧
      json_loads (normalizeReply "\x7b\"a\": 1\x7d\n```".data) = none) ∧
    containsSub bt3 (normalizeReply
      ("```\n".data ++ "\x7b\"a\": \"x```y\"\x7d".data ++ "\n```".data)) = false :=
  ⟨⟨(fence_removal_branch_behavior "\x7b\"a\": 1\x7d\n```".data).1 (by rfl), rfl⟩,
    (fence_removal_branch_behavior _).2 (by rfl)⟩

/-! ### Helper lemmas for the JSON parser on error payloads -/

theorem sbGo_safe (s : List Char) : ∀ (fuel : Nat) (rest : List Char),
    s.length < fuel → s.all jsonSafeChar = true →
    sbGo fuel (s ++ '"' :: rest) = some (s, rest) := by
  induction s with
  | nil =>
    intro fuel rest hf _
    match fuel, hf with
    | f + 1, _ => rfl
  | cons c s' ih =>
    intro fuel rest hf hs
    rw [List.all_cons, Bool.and_eq_true] at hs
    have hc := hs.1
    rw [jsonSafeChar, Bool.and_eq_true, Bool.and_eq_true] at hc
    have h1 : ¬ c = '"' := by simpa using hc.1.1
    have h2 : ¬ c = '\\' := by simpa using hc.1.2
    have h3 : ¬ c.toNat < 0x20 := by
      have := of_decide_eq_true hc.2
      omega
    match fuel, hf with
    | f + 1, hf =>
      show sbGo (f + 1) (c :: (s' ++ '"' :: rest)) = _
      rw [sbGo.eq_def]
      simp only []
      rw [if_neg h1, if_neg h2, if_neg h3,
        ih f rest (Nat.lt_of_succ_lt_succ hf) hs.2]
      rfl

theorem stringBody_safe (s rest : List Char) (hs : s.all jsonSafeChar = true) :
    stringBody (s ++ '"' :: rest) = some (s, rest) := by
  rw [stringBody]
  exact sbGo_safe s _ rest (by simp [List.length_append]; omega) hs

theorem parseF_errPayload (fuel : Nat) (w : List Char) (hw : w.all jsonSafeChar = true) :
    parseF (fuel + 3) .value
      ('{' :: '"' :: 'e' :: 'r' :: 'r' :: 'o' :: 'r' :: '"' :: ':' :: ' ' :: '"' ::
        (w ++ '"' :: '}' :: [])) =
      some (.obj [("error".data, .str w)], []) := by
  have hsb : stringBody (w ++ '"' :: '}' :: []) = some (w, ['}']) :=
    stringBody_safe w _ hw
  have hv : parseF (fuel + 1) .value (' ' :: '"' :: (w ++ '"' :: '}' :: [])) =
      (stringBody (w ++ '"' :: '}' :: [])).map (fun p => (Json.str p.1, p.2)) := rfl
  have hm : parseF (fuel + 3) .value
      ('{' :: '"' :: 'e' :: 'r' :: 'r' :: 'o' :: 'r' :: '"' :: ':' :: ' ' :: '"' ::
        (w ++ '"' :: '}' :: [])) =
      (match parseF (fuel + 1) .value (' ' :: '"' :: (w ++ '"' :: '}' :: [])) with
       | none => none
       | some (v, r3) =>
         match skipWs r3 with
         | ',' :: r4 => parseF (fuel + 1) (.members ([] ++ [("error".data, v)])) (skipWs r4)
         | '}' :: r4 => some (.obj ([] ++ [("error".data, v)]), r4)
         | _ => none) := rfl
  rw [hm, hv, hsb]
  rfl

theorem json_loads_errPayload (tag msg : List Char)
    (h : (tag ++ msg).all jsonSafeChar = true) :
    json_loads (errPayload tag msg) =
      some (.obj [("error".data, .str (tag ++ msg))]) := by
  have hshape : errPayload tag msg =
      '{' :: '"' :: 'e' :: 'r' :: 'r' :: 'o' :: 'r' :: '"' :: ':' :: ' ' :: '"' ::
        ((tag ++ msg) ++ '"' :: '}' :: []) := by
    rw [errPayload]
    simp [List.append_assoc]
  rw [json_loads, hshape]
  have hl : ('{' :: '"' :: 'e' :: 'r' :: 'r' :: 'o' :: 'r' :: '"' :: ':' :: ' ' :: '"' ::
      ((tag ++ msg) ++ '"' :: '}' :: [])).length + 1 = ((tag ++ msg).length + 11) + 3 := by
    simp only [List.length_cons, List.length_append, List.length_nil]
  rw [hl, parseF_errPayload _ _ h]
  rfl

/-! ### Claim C1: the error payload of a failed model call -/

/-- C1 as stated is false: at the concrete exception message
`API key not valid. [reason: "API_KEY_INVALID"]` — a real model-client
error shape, whose bare double quotes are interpolated unescaped — the
wrapper's f-string is not valid JSON and the parse raises (modelled by
`none`). -/
theorem error_payload_parse_cex :
    json_loads (analyze_resume
      (.exc "API key not valid. [reason: \"API_KEY_INVALID\"]".data)) = none := rfl

/-- C1 amended: each of the three wrappers converts a caught exception
into its error payload (never propagating the exception, the wrappers
being total), and whenever the exception message contains no double
quote, backslash or control character, that payload parses as a JSON
object with the single `error` string field describing the failure. -/
theorem error_payload_parses (e : List Char) (he : e.all jsonSafeChar = true) :
    json_loads (analyze_resume (.exc e)) =
      some (.obj [("error".data, .str ("Failed to analyze resume: ".data ++ e))]) ∧
    json_loads (parse_structured_resume (.exc e)) =
      some (.obj [("error".data, .str ("Failed to parse resume: ".data ++ e))]) ∧
    json_loads (detect_jargon_and_ats_issues (.exc e)) =
      some (.obj [("error".data,
        .str ("Failed to analyze jargon/ATS: ".data ++ e))]) := by
  refine ⟨?_, ?_, ?_⟩ <;>
    exact json_loads_errPayload _ e (by
      rw [List.all_append, Bool.and_eq_true]
      exact ⟨by decide, he⟩)

/-- Witness for the amended C1 at the concrete message `quota exceeded`. -/
theorem error_payload_parses_w :
    json_loads (analyze_resume (.exc "quota exceeded".data)) =
      some (.obj [("error".data,
        .str "Failed to analyze resume: quota exceeded".data)]) := by
  rw [(error_payload_parses "quota exceeded".data (by decide)).1]
  rfl

/-! ### Helper lemmas for UTF-8 decoding -/

theorem char_valid_nat (c : Char) :
    c.toNat < 0x110000 ∧ (c.toNat < 0xD800 ∨ 0xDFFF < c.toNat) := by
  have he : c.toNat = c.val.toNat := rfl
  rcases c.valid with h | ⟨h1, h2⟩
  · exact ⟨by omega, Or.inl (by omega)⟩
  · exact ⟨by omega, Or.inr (by omega)⟩

theorem u8Go_encodeChar (c : Char) (fuel : Nat) (bs : List Nat) :
    u8Go (fuel + 1) (utf8EncodeChar c ++ bs) =
      (u8Go fuel bs).map (fun t => c :: t) := by
  obtain ⟨hv1, hv2⟩ := char_valid_nat c
  rw [utf8EncodeChar]
  by_cases h1 : c.toNat < 0x80
  · rw [if_pos h1]
    show u8Go (fuel + 1) (c.toNat :: bs) = _
    rw [u8Go.eq_def]
    simp only []
    rw [if_pos (by omega : c.toNat ≤ 0x7F), Char.ofNat_toNat]
  · rw [if_neg h1]
    by_cases h2 : c.toNat < 0x800
    · rw [if_pos h2]
      show u8Go (fuel + 1) ((0xC0 + c.toNat / 64) :: (0x80 + c.toNat % 64) :: bs) = _
      rw [u8Go.eq_def]
      simp only []
      rw [if_neg (by omega), if_pos (by constructor <;> omega)]
      rw [if_pos (by simp [utf8Cont]; omega)]
      have harith : (0xC0 + c.toNat / 64 - 0xC0) * 64 + (0x80 + c.toNat % 64 - 0x80) =
          c.toNat := by omega
      rw [harith, Char.ofNat_toNat]
    · rw [if_neg h2]
      by_cases h3 : c.toNat < 0x10000
      · rw [if_pos h3]
        show u8Go (fuel + 1) ((0xE0 + c.toNat / 4096) :: (0x80 + c.toNat / 64 % 64) ::
          (0x80 + c.toNat % 64) :: bs) = _
        rw [u8Go.eq_def]
        simp only []
        rw [if_neg (by omega), if_neg (by omega 
          ), if_pos (by constructor <;> omega)]
        rw [if_pos (by
          refine ⟨by simp [utf8Cont]; omega, by simp [utf8Cont]; omega, ?_, ?_⟩ <;>
            intro hb <;> omega)]
        have harith : (0xE0 + c.toNat / 4096 - 0xE0) * 4096 +
            (0x80 + c.toNat / 64 % 64 - 0x80) * 64 + (0x80 + c.toNat % 64 - 0x80) =
            c.toNat := by omega
        rw [harith, Char.ofNat_toNat]
      · rw [if_neg h3]
        show u8Go (fuel + 1) ((0xF0 + c.toNat / 262144) :: (0x80 + c.toNat / 4096 % 64) ::
          (0x80 + c.toNat / 64 % 64) :: (0x80 + c.toNat % 64) :: bs) = _
        rw [u8Go.eq_def]
        simp only []
        rw [if_neg (by omega), if_neg (by omega), if_neg (by omega),
          if_pos (by constructor <;> omega)]
        rw [if_pos (by
          refine ⟨by simp [utf8Cont]; omega, by simp [utf8Cont]; omega,
            by simp [utf8Cont]; omega, ?_, ?_⟩ <;> intro hb <;> omega)]
        have harith : (0xF0 + c.toNat / 262144 - 0xF0) * 262144 +
            (0x80 + c.toNat / 4096 % 64 - 0x80) * 4096 +
            (0x80 + c.toNat / 64 % 64 - 0x80) * 64 + (0x80 + c.toNat % 64 - 0x80) =
            c.toNat := by omega
        rw [harith, Char.ofNat_toNat]

theorem utf8EncodeChar_length_pos (c : Char) : 0 < (utf8EncodeChar c).length := by
  rw [utf8EncodeChar]
  split_ifs <;> simp

theorem u8Go_encode_of_lt (t : List Char) : ∀ (fuel : Nat),
    (utf8Encode t).length < fuel → u8Go fuel (utf8Encode t) = some t := by
  induction t with
  | nil =>
    intro fuel hf
    match fuel, hf with
    | f + 1, _ => rfl
  | cons c t' ih =>
    intro fuel hf
    match fuel, hf with
    | f + 1, hf =>
      rw [utf8Encode, u8Go_encodeChar c f (utf8Encode t')]
      rw [ih f (by
        rw [utf8Encode, List.length_append] at hf
        have := utf8EncodeChar_length_pos c
        omega)]
      rfl

theorem utf8Decode_utf8Encode (t : List Char) : utf8Decode (utf8Encode t) = some t := by
  rw [utf8Decode]
  exact u8Go_encode_of_lt t _ (Nat.lt_succ_self _)

/-! ### Claim C8: extraction yields the exact concatenation of section 4.1 -/

/-- C8: PDF extraction is the page texts joined by newline in page order,
DOCX extraction is the paragraph texts joined by newline in document
order — both exactly the spec-modelled newline concatenation — and plain
text extraction decodes the bytes as UTF-8, so extracting the encoding of
any known content yields exactly that content. -/
theorem extraction_matches_spec :
    (∀ pages, extract_text_from_pdf pages = specNewlineConcat pages) ∧
    (∀ paras, extract_text_from_docx paras = specNewlineConcat paras) ∧
    (∀ text : List Char, extract_text_from_txt (utf8Encode text) = some text) := by
  have hj : ∀ l, pyJoin "\n".data l = specNewlineConcat l := by
    intro l
    induction l with
    | nil => rfl
    | cons x xs ih =>
      cases xs with
      | nil => rfl
      | cons y ys =>
        rw [pyJoin, specNewlineConcat, ih] <;> simp
  exact ⟨hj, hj, utf8Decode_utf8Encode⟩
